import Mathlib

/-
Verification of the Juju raft-lease apply mediator and blocking operation
queue. The mediator (raftMediator.ApplyLease, package apiserver) is embedded
from its Go source. The BlockingOpQueue implementation and the queue error
helpers are present in the repository only through their tests and callers,
so they are modelled from the specification as a labelled transition system
over producers, a single consumer and an injected clock.
-/

namespace Juju

/-- Byte strings (Go []byte) are modelled as lists of naturals. -/
abbrev Bytes := List Nat

/-- Operation of the queue package: an ordered sequence of opaque command
byte-strings. Shape taken from the source uses
Operation\x7bCommands: [][]byte\x7b...\x7d\x7d. -/
structure Operation where
  Commands : List Bytes
deriving DecidableEq, Inhabited

/-- Go error values appearing in the mediator and queue, with the juju
errors cause chain made explicit: traced wraps an error and preserves its
cause, every other constructor is its own cause. errDeadlineExceeded is the
sentinel error of the queue package, notLeader is the worker raft
NotLeaderError, notLeaderPublic and deadlineExceededPublic are the apiserver
errors the mediator constructs, errorString models errors.New. -/
inductive GoError where
  | errorString (msg : String)
  | errDeadlineExceeded
  | notLeader (serverAddress serverID : String)
  | notLeaderPublic (serverAddress serverID : String)
  | deadlineExceededPublic (msg : String)
  | traced (e : GoError)
deriving DecidableEq

/-- Modelled from the spec: errors.Cause of the juju errors library, which
the mediator uses to look through Trace annotations; it unwraps every traced
layer and returns the underlying error. -/
def GoError.cause : GoError → GoError
  | .traced e => e.cause
  | .errorString m => .errorString m
  | .errDeadlineExceeded => .errDeadlineExceeded
  | .notLeader a i => .notLeader a i
  | .notLeaderPublic a i => .notLeaderPublic a i
  | .deadlineExceededPublic m => .deadlineExceededPublic m

/-- Cause chain of an error: the error itself followed by every error it
wraps, ending at the underlying cause. -/
def GoError.causeChain : GoError → List GoError
  | .traced e => .traced e :: e.causeChain
  | .errorString m => [.errorString m]
  | .errDeadlineExceeded => [.errDeadlineExceeded]
  | .notLeader a i => [.notLeader a i]
  | .notLeaderPublic a i => [.notLeaderPublic a i]
  | .deadlineExceededPublic m => [.deadlineExceededPublic m]

/-- Message of an error (Go Error() string). The sentinel of the queue
package carries the literal text observed by the tests; a Trace annotation
preserves the message of the error it wraps. -/
def GoError.message : GoError → String
  | .errorString m => m
  | .errDeadlineExceeded => "enqueueing deadline exceeded"
  | .notLeader _ _ => "not currently the raft leader"
  | .notLeaderPublic _ _ => "not currently the raft leader"
  | .deadlineExceededPublic m => m
  | .traced e => e.message

/-- Modelled from the spec: IsDeadlineExceeded of the queue package (its
implementation is not under src, only its tests); true exactly when the
cause of the error is the ErrDeadlineExceeded sentinel. -/
def IsDeadlineExceeded (e : GoError) : Bool :=
  e.cause == GoError.errDeadlineExceeded

/-- Modelled from the spec: IsNotLeaderError of the worker raft package
(not under src); true exactly when the cause of the error is a
NotLeaderError value. -/
def IsNotLeaderError (e : GoError) : Bool :=
  match e.cause with
  | .notLeader _ _ => true
  | _ => false

/-- Outcome of a call to ApplyLease: nil, an error value, or a Go panic
(the unchecked type assertion in the NotLeader branch failing). -/
inductive ApplyResult where
  | ok
  | err (e : GoError)
  | panicked
deriving DecidableEq

/-- Error classification switch of raftMediator.ApplyLease, translated
case for case from the source: nil stays nil; a NotLeader cause is lifted
to the apiserver NotLeaderError via an unchecked type assertion on the
cause; a deadline-exceeded error becomes the apiserver DeadlineExceededError
carrying the message; anything else is returned with a Trace annotation. -/
def applyLeaseClassify : Option GoError → ApplyResult
  | none => .ok
  | some e =>
    if IsNotLeaderError e then
      match e.cause with
      | .notLeader a i => .err (.notLeaderPublic a i)
      | _ => .panicked
    else if IsDeadlineExceeded e then
      .err (.deadlineExceededPublic e.message)
    else
      .err (.traced e)

/-- Observable effect of one ApplyLease call: the operations it enqueued
and the classified result. -/
structure ApplyLeaseTrace where
  enqueued : List Operation
  result : ApplyResult

/-- raftMediator.ApplyLease translated from the source: it wraps the
command bytes as a single-command Operation, enqueues exactly that
operation, and classifies the error returned by Enqueue. The queue is
abstracted as the function giving the value Enqueue returns. -/
def ApplyLease (enqueue : Operation → Option GoError) (cmd : Bytes) :
    ApplyLeaseTrace :=
  { enqueued := [⟨[cmd]⟩], result := applyLeaseClassify (enqueue ⟨[cmd]⟩) }

/-- Helper: the cause of an error is the sentinel exactly when the sentinel
appears in the cause chain (the sentinel wraps nothing, so it can only be
the last element of a chain). -/
lemma cause_eq_sentinel_iff_mem (e : GoError) :
    e.cause = GoError.errDeadlineExceeded ↔
      GoError.errDeadlineExceeded ∈ e.causeChain := by
  induction e with
  | traced e ih => simp [GoError.cause, GoError.causeChain, ih]
  | errorString m => simp [GoError.cause, GoError.causeChain]
  | errDeadlineExceeded => simp [GoError.cause, GoError.causeChain]
  | notLeader a i => simp [GoError.cause, GoError.causeChain]
  | notLeaderPublic a i => simp [GoError.cause, GoError.causeChain]
  | deadlineExceededPublic m => simp [GoError.cause, GoError.causeChain]

/-- C6: IsDeadlineExceeded(err) returns true if and only if err is
ErrDeadlineExceeded or some error in err's cause chain is
ErrDeadlineExceeded. -/
theorem isDeadlineExceeded_iff_causeChain (e : GoError) :
    IsDeadlineExceeded e = true ↔
      (e = GoError.errDeadlineExceeded ∨
        GoError.errDeadlineExceeded ∈ e.causeChain) := by
  rw [IsDeadlineExceeded, beq_iff_eq, cause_eq_sentinel_iff_mem]
  constructor
  · exact fun h => Or.inr h
  · rintro (rfl | h)
    · simp [GoError.causeChain]
    · exact h

/-- Witness for C6 at the sentinel itself. -/
theorem isDeadlineExceeded_iff_causeChain_witness :
    IsDeadlineExceeded GoError.errDeadlineExceeded = true :=
  (isDeadlineExceeded_iff_causeChain GoError.errDeadlineExceeded).mpr
    (Or.inl rfl)

/-- C9: ApplyLease(cmd) enqueues exactly one Operation whose Commands field
is the one-element sequence containing cmd, bytes unchanged. -/
theorem applyLease_enqueues_single_command
    (enqueue : Operation → Option GoError) (cmd : Bytes) :
    (ApplyLease enqueue cmd).enqueued = [Operation.mk [cmd]] := rfl

/-- C10: whenever IsNotLeaderError holds of the error returned by Enqueue,
the cause is a NotLeaderError value, so the unchecked type assertion in the
NotLeader branch of ApplyLease cannot fail. -/
theorem notLeader_assertion_safe (e : GoError)
    (h : IsNotLeaderError e = true) :
    (∃ a i, e.cause = GoError.notLeader a i) ∧
      applyLeaseClassify (some e) ≠ ApplyResult.panicked := by
  have hc : ∃ a i, e.cause = GoError.notLeader a i := by
    unfold IsNotLeaderError at h
    cases hm : e.cause <;> rw [hm] at h <;> simp_all
  refine ⟨hc, ?_⟩
  obtain ⟨a, i, hc⟩ := hc
  simp [applyLeaseClassify, h, hc]

/-- Witness for C10 at a concrete NotLeader error. -/
theorem notLeader_assertion_safe_witness :
    applyLeaseClassify (some (GoError.notLeader "10.0.0.1" "2")) ≠
      ApplyResult.panicked :=
  (notLeader_assertion_safe (GoError.notLeader "10.0.0.1" "2") rfl).2

/-- C4: if the queue hands ApplyLease a NotLeader error with address a and
ID i, ApplyLease returns the public NotLeaderError carrying exactly a and
exactly i, both strings unchanged. -/
theorem applyLease_notLeader_roundTrip (a i : String)
    (enqueue : Operation → Option GoError) (cmd : Bytes)
    (h : enqueue ⟨[cmd]⟩ = some (GoError.notLeader a i)) :
    (ApplyLease enqueue cmd).result =
      ApplyResult.err (GoError.notLeaderPublic a i) := by
  simp [ApplyLease, h, applyLeaseClassify, IsNotLeaderError, GoError.cause]

/-- Witness for C4 at the literal coordinates of scenario F. -/
theorem applyLease_notLeader_roundTrip_witness :
    (ApplyLease (fun _ => some (GoError.notLeader "10.0.0.2:17070" "3"))
        []).result =
      ApplyResult.err (GoError.notLeaderPublic "10.0.0.2:17070" "3") :=
  applyLease_notLeader_roundTrip "10.0.0.2:17070" "3" _ [] rfl

/-- C1: ApplyLease classifies the error returned by Enqueue in order:
nil stays nil; a NotLeader cause becomes the public NotLeaderError with the
cause's coordinates; otherwise a deadline-exceeded error becomes the public
DeadlineExceededError carrying the message; otherwise the error is returned
with a Trace annotation. No error is swallowed or moved to another class. -/
theorem applyLease_error_classification
    (enqueue : Operation → Option GoError) (cmd : Bytes) :
    (enqueue ⟨[cmd]⟩ = none → (ApplyLease enqueue cmd).result = .ok) ∧
    (∀ e, enqueue ⟨[cmd]⟩ = some e → IsNotLeaderError e = true →
      ∀ a i, e.cause = GoError.notLeader a i →
        (ApplyLease enqueue cmd).result =
          ApplyResult.err (GoError.notLeaderPublic a i)) ∧
    (∀ e, enqueue ⟨[cmd]⟩ = some e → IsNotLeaderError e = false →
      IsDeadlineExceeded e = true →
        (ApplyLease enqueue cmd).result =
          ApplyResult.err (GoError.deadlineExceededPublic e.message)) ∧
    (∀ e, enqueue ⟨[cmd]⟩ = some e → IsNotLeaderError e = false →
      IsDeadlineExceeded e = false →
        (ApplyLease enqueue cmd).result =
          ApplyResult.err (GoError.traced e)) := by
  refine ⟨?_, ?_, ?_, ?_⟩
  · intro h; simp [ApplyLease, h, applyLeaseClassify]
  · intro e h hnl a i hc
    simp [ApplyLease, h, applyLeaseClassify, hnl, hc]
  · intro e h hnl hdl
    simp [ApplyLease, h, applyLeaseClassify, hnl, hdl]
  · intro e h hnl hdl
    simp [ApplyLease, h, applyLeaseClassify, hnl, hdl]

/-- Witness for C1 on the deadline-exceeded branch at the sentinel. -/
theorem applyLease_error_classification_witness :
    (ApplyLease (fun _ => some GoError.errDeadlineExceeded) []).result =
      ApplyResult.err
        (GoError.deadlineExceededPublic "enqueueing deadline exceeded") :=
  (applyLease_error_classification
      (fun _ => some GoError.errDeadlineExceeded) []).2.2.1
    GoError.errDeadlineExceeded rfl rfl rfl

/-- Modelled from the spec: EnqueueTimeout, the fixed queue-level maximum
producer wait for handoff, in nanoseconds (the tests drive it with a one
second virtual clock). -/
def EnqueueTimeout : Nat := 1000000000

/-- Status of one producer task over the life of its Enqueue call: racing
the handoff send against its deadline timer, committed and waiting for the
consumer's reply, finished with the consumer's reply, or finished by the
deadline timer firing before handoff. -/
inductive PStatus where
  | waiting (op : Operation) (deadline : Nat)
  | awaitingReply (op : Operation)
  | doneReplied (op : Operation) (reply : Option GoError)
  | doneTimedOut (op : Operation)
deriving DecidableEq, Inhabited

/-- Operation the producer submitted. -/
def PStatus.op : PStatus → Operation
  | .waiting o _ => o
  | .awaitingReply o => o
  | .doneReplied o _ => o
  | .doneTimedOut o => o

/-- Value the Enqueue call returns once the producer is finished: the
consumer's reply verbatim after a handoff, the ErrDeadlineExceeded sentinel
after a timeout, nothing while still running. -/
def PStatus.enqueueResult : PStatus → Option (Option GoError)
  | .waiting _ _ => none
  | .awaitingReply _ => none
  | .doneReplied _ e => some e
  | .doneTimedOut _ => some (some .errDeadlineExceeded)

/-- Producer finished with a nil reply from the consumer. -/
def PStatus.isDoneNil : PStatus → Bool
  | .doneReplied _ none => true
  | _ => false

/-- Modelled from the spec: global state of the BlockingOpQueue system (the
queue implementation is not under src, only its tests). producers lists
every Enqueue call ever started; consumerBusy holds the operation between
its handoff on the in channel and the consumer's reply on the out channel;
received logs each handoff as a pair of producer index and operation;
replied logs every reply the consumer sent; clock is the injected clock. -/
structure QState where
  producers : List PStatus
  consumerBusy : Option Operation
  received : List (Nat × Operation)
  replied : List (Option GoError)
  clock : Nat
deriving DecidableEq

/-- Initial state: no producers, idle consumer, clock at zero. -/
def initState : QState :=
  { producers := [], consumerBusy := none, received := [], replied := [],
    clock := 0 }

/-- Labels of the queue transition system. -/
inductive Label where
  | spawn (op : Operation)
  | handoff (p : Nat)
  | timeout (p : Nat)
  | reply (p : Nat) (e : Option GoError)
  | tick (d : Nat)

/-- Modelled from the spec: one step of an interleaving of producers, the
single consumer and the injected clock. spawn starts an Enqueue call and
arms its deadline timer; handoff is the rendezvous of a waiting producer
with the idle consumer on the unbuffered in channel (the spec allows it
whenever both are ready, even in a tie with the timer); timeout fires the
deadline timer of a producer that is still waiting to hand off; reply is
the rendezvous of the consumer's single reply on the unbuffered out channel
with the producer that is committed to hearing the outcome; tick advances
the injected clock. -/
inductive Step : QState → Label → QState → Prop where
  | spawn (s : QState) (op : Operation) :
      Step s (.spawn op)
        { s with producers :=
            s.producers ++ [.waiting op (s.clock + EnqueueTimeout)] }
  | handoff (s : QState) (p : Nat) (op : Operation) (d : Nat)
      (hp : s.producers[p]? = some (.waiting op d))
      (hc : s.consumerBusy = none) :
      Step s (.handoff p)
        { s with producers := s.producers.set p (.awaitingReply op),
                 consumerBusy := some op,
                 received := s.received ++ [(p, op)] }
  | timeout (s : QState) (p : Nat) (op : Operation) (d : Nat)
      (hp : s.producers[p]? = some (.waiting op d))
      (hd : d ≤ s.clock) :
      Step s (.timeout p)
        { s with producers := s.producers.set p (.doneTimedOut op) }
  | reply (s : QState) (p : Nat) (op opB : Operation) (e : Option GoError)
      (hp : s.producers[p]? = some (.awaitingReply op))
      (hc : s.consumerBusy = some opB) :
      Step s (.reply p e)
        { s with producers := s.producers.set p (.doneReplied op e),
                 consumerBusy := none,
                 replied := s.replied ++ [e] }
  | tick (s : QState) (d : Nat) :
      Step s (.tick d) { s with clock := s.clock + d }

/-- States reachable from the initial state by finitely many steps. -/
inductive Reachable : QState → Prop where
  | init : Reachable initState
  | step {s l t} : Reachable s → Step s l t → Reachable t

/-- Reflexive transitive closure of the step relation, for properties that
hold from a given instant onwards. -/
inductive StepStar : QState → QState → Prop where
  | refl (s : QState) : StepStar s s
  | tail {s t u : QState} {l : Label} :
      StepStar s t → Step t l u → StepStar s u

/-- Inductive invariant of the queue system. counts is the in-flight
accounting; recvState ties every handoff log entry to the state of the
producer that made it; awaitingRecv and repliedRecv record that a producer
past its handoff appears in the log; fstNodup says no producer hands off
twice. -/
structure QInv (s : QState) : Prop where
  counts : s.received.length =
    s.replied.length + (if s.consumerBusy.isSome then 1 else 0)
  recvState : ∀ e ∈ s.received, ∃ st, s.producers[e.1]? = some st ∧
    (st = PStatus.awaitingReply e.2 ∨ ∃ r, st = PStatus.doneReplied e.2 r)
  awaitingRecv : ∀ p op,
    s.producers[p]? = some (PStatus.awaitingReply op) → (p, op) ∈ s.received
  repliedRecv : ∀ p op r,
    s.producers[p]? = some (PStatus.doneReplied op r) → (p, op) ∈ s.received
  fstNodup : (s.received.map Prod.fst).Nodup

/-- Helper: a producer recorded in the handoff log is never in the waiting
or timed-out state. -/
lemma QInv.not_waiting_of_mem {s : QState} (inv : QInv s) {p : Nat}
    {st : PStatus} (hp : s.producers[p]? = some st)
    (hst : ∀ op, st ≠ PStatus.awaitingReply op)
    (hst' : ∀ op r, st ≠ PStatus.doneReplied op r) :
    p ∉ s.received.map Prod.fst := by
  intro hmem
  obtain ⟨e, he, hfst⟩ := List.mem_map.mp hmem
  obtain ⟨st', hst'', hd⟩ := inv.recvState e he
  rw [hfst, hp] at hst''
  obtain rfl : st = st' := Option.some.inj hst''
  rcases hd with h | ⟨r, h⟩
  · exact hst e.2 h
  · exact hst' e.2 r h

/-- Helper: the first component of a pair in a list is in the map of first
components. -/
lemma mem_map_fst {e : Nat × Operation} {l : List (Nat × Operation)}
    (he : e ∈ l) : e.1 ∈ l.map Prod.fst :=
  List.mem_map.mpr ⟨e, he, rfl⟩

/-- The invariant is preserved by every step of the queue system. -/
lemma QInv.step {s t : QState} {l : Label} (inv : QInv s) (h : Step s l t) :
    QInv t := by
  cases h with
  | spawn op =>
    refine ⟨inv.counts, ?_, ?_, ?_, inv.fstNodup⟩
    · intro e he
      obtain ⟨st, hst, hd⟩ := inv.recvState e he
      have hlt : e.1 < s.producers.length := (List.getElem?_eq_some.mp hst).1
      exact ⟨st, by rw [List.getElem?_append_left hlt]; exact hst, hd⟩
    · intro p op' hp
      rcases Nat.lt_trichotomy p s.producers.length with hlt | heq | hgt
      · rw [List.getElem?_append_left hlt] at hp
        exact inv.awaitingRecv p op' hp
      · subst heq
        rw [List.getElem?_concat_length] at hp
        simp at hp
      · rw [List.getElem?_eq_none_iff.mpr (by simp; omega)] at hp
        cases hp
    · intro p op' r hp
      rcases Nat.lt_trichotomy p s.producers.length with hlt | heq | hgt
      · rw [List.getElem?_append_left hlt] at hp
        exact inv.repliedRecv p op' r hp
      · subst heq
        rw [List.getElem?_concat_length] at hp
        simp at hp
      · rw [List.getElem?_eq_none_iff.mpr (by simp; omega)] at hp
        cases hp
  | handoff p op d hp hc =>
    have hplen : p < s.producers.length := (List.getElem?_eq_some.mp hp).1
    have pNotIn : p ∉ s.received.map Prod.fst :=
      inv.not_waiting_of_mem hp (fun o h => PStatus.noConfusion h)
        (fun o r h => PStatus.noConfusion h)
    have h0 := inv.counts
    rw [hc] at h0
    simp only [Option.isSome_none, Bool.false_eq_true, if_false,
      Nat.add_zero] at h0
    refine ⟨?_, ?_, ?_, ?_, ?_⟩
    · simp [List.length_append, h0]
    · intro e he
      rcases List.mem_append.mp he with he' | he'
      · obtain ⟨st, hst, hd'⟩ := inv.recvState e he'
        have hne : e.1 ≠ p := by
          intro hEq
          apply pNotIn
          rw [← hEq]
          exact mem_map_fst he'
        exact ⟨st, by rw [List.getElem?_set_ne (Ne.symm hne)]; exact hst, hd'⟩
      · have he'' : e = (p, op) := by simpa using he'
        subst he''
        refine ⟨.awaitingReply op, ?_, Or.inl rfl⟩
        show (s.producers.set p (.awaitingReply op))[p]? = _
        exact List.getElem?_set_self hplen
    · intro q oq hq
      by_cases hqp : q = p
      · subst hqp
        rw [List.getElem?_set_self hplen] at hq
        have h1 : PStatus.awaitingReply op = PStatus.awaitingReply oq :=
          Option.some.inj hq
        obtain rfl : op = oq := by injection h1
        simp
      · rw [List.getElem?_set_ne (Ne.symm hqp)] at hq
        exact List.mem_append.mpr (Or.inl (inv.awaitingRecv q oq hq))
    · intro q oq r hq
      by_cases hqp : q = p
      · subst hqp
        rw [List.getElem?_set_self hplen] at hq
        exact PStatus.noConfusion (Option.some.inj hq)
      · rw [List.getElem?_set_ne (Ne.symm hqp)] at hq
        exact List.mem_append.mpr (Or.inl (inv.repliedRecv q oq r hq))
    · have hmap : (s.received ++ [(p, op)]).map Prod.fst =
          s.received.map Prod.fst ++ [p] := by simp
      rw [hmap]
      simp [List.nodup_append, inv.fstNodup, pNotIn]
  | timeout p op d hp hd =>
    have hplen : p < s.producers.length := (List.getElem?_eq_some.mp hp).1
    have pNotIn : p ∉ s.received.map Prod.fst :=
      inv.not_waiting_of_mem hp (fun o h => PStatus.noConfusion h)
        (fun o r h => PStatus.noConfusion h)
    refine ⟨inv.counts, ?_, ?_, ?_, inv.fstNodup⟩
    · intro e he
      obtain ⟨st, hst, hd'⟩ := inv.recvState e he
      have hne : e.1 ≠ p := by
        intro hEq
        apply pNotIn
        rw [← hEq]
        exact mem_map_fst he
      exact ⟨st, by rw [List.getElem?_set_ne (Ne.symm hne)]; exact hst, hd'⟩
    · intro q oq hq
      by_cases hqp : q = p
      · subst hqp
        rw [List.getElem?_set_self hplen] at hq
        exact PStatus.noConfusion (Option.some.inj hq)
      · rw [List.getElem?_set_ne (Ne.symm hqp)] at hq
        exact inv.awaitingRecv q oq hq
    · intro q oq r hq
      by_cases hqp : q = p
      · subst hqp
        rw [List.getElem?_set_self hplen] at hq
        exact PStatus.noConfusion (Option.some.inj hq)
      · rw [List.getElem?_set_ne (Ne.symm hqp)] at hq
        exact inv.repliedRecv q oq r hq
  | reply p op opB e hp hc =>
    have hplen : p < s.producers.length := (List.getElem?_eq_some.mp hp).1
    have h0 := inv.counts
    rw [hc] at h0
    simp only [Option.isSome_some, if_true] at h0
    refine ⟨?_, ?_, ?_, ?_, inv.fstNodup⟩
    · simp [List.length_append, h0]
    · rintro ⟨q, o2⟩ he'
      obtain ⟨st, hst, hd'⟩ := inv.recvState (q, o2) he'
      by_cases hqp : q = p
      · subst hqp
        rw [hp] at hst
        obtain rfl : PStatus.awaitingReply op = st := Option.some.inj hst
        rcases hd' with h1 | ⟨r, h1⟩
        · obtain rfl : op = o2 := by injection h1
          refine ⟨.doneReplied op e, ?_, Or.inr ⟨e, rfl⟩⟩
          show (s.producers.set q (.doneReplied op e))[q]? = _
          exact List.getElem?_set_self hplen
        · exact PStatus.noConfusion h1
      · refine ⟨st, ?_, hd'⟩
        show (s.producers.set p (.doneReplied op e))[q]? = some st
        rw [List.getElem?_set_ne (Ne.symm hqp)]
        exact hst
    · intro q oq hq
      by_cases hqp : q = p
      · subst hqp
        rw [List.getElem?_set_self hplen] at hq
        exact PStatus.noConfusion (Option.some.inj hq)
      · rw [List.getElem?_set_ne (Ne.symm hqp)] at hq
        exact inv.awaitingRecv q oq hq
    · intro q oq r hq
      by_cases hqp : q = p
      · subst hqp
        rw [List.getElem?_set_self hplen] at hq
        have h1 : PStatus.doneReplied op e = PStatus.doneReplied oq r :=
          Option.some.inj hq
        obtain rfl : op = oq := by injection h1
        exact inv.awaitingRecv q op hp
      · rw [List.getElem?_set_ne (Ne.symm hqp)] at hq
        exact inv.repliedRecv q oq r hq
  | tick d =>
    exact ⟨inv.counts, inv.recvState, inv.awaitingRecv, inv.repliedRecv,
      inv.fstNodup⟩

/-- Every reachable state satisfies the invariant. -/
lemma reachable_qinv {s : QState} (h : Reachable s) : QInv s := by
  induction h with
  | init => refine ⟨?_, ?_, ?_, ?_, ?_⟩ <;> simp [initState]
  | step hr hs ih => exact QInv.step ih hs

/-- A producer that finished by timeout stays finished by timeout in every
later state: done states are terminal. -/
lemma step_preserves_doneTimedOut {s t : QState} {l : Label} {p : Nat}
    {op : Operation} (h : Step s l t)
    (hp : s.producers[p]? = some (PStatus.doneTimedOut op)) :
    t.producers[p]? = some (PStatus.doneTimedOut op) := by
  cases h with
  | spawn op' =>
    have hlt : p < s.producers.length := (List.getElem?_eq_some.mp hp).1
    show (s.producers ++ _)[p]? = _
    rw [List.getElem?_append_left hlt]
    exact hp
  | handoff q op' d hq hc =>
    have hne : q ≠ p := by
      intro hEq
      rw [hEq, hp] at hq
      exact PStatus.noConfusion (Option.some.inj hq)
    show (s.producers.set q _)[p]? = _
    rw [List.getElem?_set_ne hne]
    exact hp
  | timeout q op' d hq hd =>
    have hne : q ≠ p := by
      intro hEq
      rw [hEq, hp] at hq
      exact PStatus.noConfusion (Option.some.inj hq)
    show (s.producers.set q _)[p]? = _
    rw [List.getElem?_set_ne hne]
    exact hp
  | reply q op' opB e hq hc =>
    have hne : q ≠ p := by
      intro hEq
      rw [hEq, hp] at hq
      exact PStatus.noConfusion (Option.some.inj hq)
    show (s.producers.set q _)[p]? = _
    rw [List.getElem?_set_ne hne]
    exact hp
  | tick d => exact hp

/-- Runs starting at a reachable state stay reachable. -/
lemma reachable_of_stepStar {s t : QState} (hr : Reachable s)
    (h : StepStar s t) : Reachable t := by
  induction h with
  | refl => exact hr
  | tail h1 h2 ih => exact Reachable.step ih h2

/-- Terminality of the timed-out state along whole runs. -/
lemma stepStar_preserves_doneTimedOut {s t : QState} {p : Nat}
    {op : Operation} (h : StepStar s t)
    (hp : s.producers[p]? = some (PStatus.doneTimedOut op)) :
    t.producers[p]? = some (PStatus.doneTimedOut op) := by
  induction h with
  | refl => exact hp
  | tail h1 h2 ih => exact step_preserves_doneTimedOut h2 ih

/-- C2: when a producer's Enqueue has finished by deadline, no handoff log
entry of the current state or of any later state of the run is attributed
to it: the consumer has not observed and never observes that operation. -/
theorem deadline_exceeded_never_observed (s t : QState) (p : Nat)
    (op : Operation) (hr : Reachable s)
    (hp : s.producers[p]? = some (PStatus.doneTimedOut op))
    (hrun : StepStar s t) :
    t.received.all (fun e => e.1 != p) = true := by
  have hrt : Reachable t := reachable_of_stepStar hr hrun
  have hpt := stepStar_preserves_doneTimedOut hrun hp
  have inv := reachable_qinv hrt
  simp only [List.all_eq_true, bne_iff_ne, ne_eq]
  intro e he hEq
  obtain ⟨st, hst, hd⟩ := inv.recvState e he
  rw [hEq, hpt] at hst
  obtain rfl : PStatus.doneTimedOut op = st := Option.some.inj hst
  rcases hd with h1 | ⟨r, h1⟩
  · exact PStatus.noConfusion h1
  · exact PStatus.noConfusion h1

/-- Concrete operation for the C2 witness run. -/
def c2op : Operation := ⟨[[0]]⟩

/-- State of the C2 witness run after a spawn, a clock advance past the
deadline and the timeout firing. -/
def c2state : QState :=
  { producers := [PStatus.doneTimedOut c2op], consumerBusy := none,
    received := [], replied := [], clock := EnqueueTimeout }

/-- The C2 witness state is reachable. -/
lemma c2state_reachable : Reachable c2state :=
  Reachable.step (Reachable.step (Reachable.step Reachable.init
    (Step.spawn initState c2op))
    (Step.tick _ EnqueueTimeout))
    (Step.timeout _ 0 c2op (initState.clock + EnqueueTimeout) rfl
      (Nat.le_refl _))

/-- Witness for C2 on the concrete timed-out run. -/
theorem deadline_exceeded_never_observed_witness :
    c2state.received.all (fun e => e.1 != 0) = true :=
  deadline_exceeded_never_observed c2state c2state 0 c2op c2state_reachable
    rfl (StepStar.refl c2state)

/-- C7: at every reachable instant, the number of operations the consumer
has received minus the number of replies it has sent is zero or one. -/
theorem consumer_in_flight_zero_or_one (s : QState) (hr : Reachable s) :
    s.received.length = s.replied.length ∨
      s.received.length = s.replied.length + 1 := by
  have inv := reachable_qinv hr
  rcases hb : s.consumerBusy with _ | busyOp
  · left
    have h0 := inv.counts
    rw [hb] at h0
    simpa using h0
  · right
    have h0 := inv.counts
    rw [hb] at h0
    simpa using h0

/-- Witness for C7 at the initial state. -/
theorem consumer_in_flight_zero_or_one_witness :
    initState.received.length = initState.replied.length ∨
      initState.received.length = initState.replied.length + 1 :=
  consumer_in_flight_zero_or_one initState Reachable.init

/-- C3: a producer still waiting to hand off once the clock has passed its
deadline can take the timeout step; its Enqueue call then returns the
ErrDeadlineExceeded sentinel, whose message is the literal text and which
IsDeadlineExceeded accepts. -/
theorem enqueue_timeout_deadline_exceeded (s : QState) (p : Nat)
    (op : Operation) (d : Nat) (_hr : Reachable s)
    (hp : s.producers[p]? = some (PStatus.waiting op d))
    (hd : d ≤ s.clock) :
    Step s (Label.timeout p)
        { s with producers := s.producers.set p (PStatus.doneTimedOut op) } ∧
      ({ s with producers := s.producers.set p (PStatus.doneTimedOut op)
        }).producers[p]? = some (PStatus.doneTimedOut op) ∧
      PStatus.enqueueResult (PStatus.doneTimedOut op) =
        some (some GoError.errDeadlineExceeded) ∧
      GoError.message GoError.errDeadlineExceeded =
        "enqueueing deadline exceeded" ∧
      IsDeadlineExceeded GoError.errDeadlineExceeded = true := by
  refine ⟨Step.timeout s p op d hp hd, ?_, rfl, rfl, rfl⟩
  show (s.producers.set p _)[p]? = _
  exact List.getElem?_set_self (List.getElem?_eq_some.mp hp).1

/-- Concrete operation for the C3 witness run. -/
def c3op : Operation := ⟨[[1]]⟩

/-- State of the C3 witness run: one producer spawned at clock zero, the
clock then advanced by exactly EnqueueTimeout with no consumer. -/
def c3state : QState :=
  { producers := [PStatus.waiting c3op EnqueueTimeout], consumerBusy := none,
    received := [], replied := [], clock := EnqueueTimeout }

/-- The C3 witness state is reachable. -/
lemma c3state_reachable : Reachable c3state :=
  Reachable.step (Reachable.step Reachable.init
    (Step.spawn initState c3op))
    (Step.tick _ EnqueueTimeout)

/-- Witness for C3 on the concrete run. -/
theorem enqueue_timeout_deadline_exceeded_witness :
    ({ c3state with producers :=
        c3state.producers.set 0 (PStatus.doneTimedOut c3op)
      }).producers[0]? = some (PStatus.doneTimedOut c3op) ∧
      GoError.message GoError.errDeadlineExceeded =
        "enqueueing deadline exceeded" ∧
      IsDeadlineExceeded GoError.errDeadlineExceeded = true := by
  have h := enqueue_timeout_deadline_exceeded c3state 0 c3op EnqueueTimeout
    c3state_reachable rfl (Nat.le_refl EnqueueTimeout)
  exact ⟨h.2.1, h.2.2.2.1, h.2.2.2.2⟩

/-- Inversion of a reply step: its preconditions and the resulting state. -/
lemma reply_step_inversion {s t : QState} {p : Nat} {e : Option GoError}
    (hstep : Step s (Label.reply p e) t) :
    ∃ op opB, s.producers[p]? = some (PStatus.awaitingReply op) ∧
      s.consumerBusy = some opB ∧
      t = { s with
            producers := s.producers.set p (PStatus.doneReplied op e),
            consumerBusy := none,
            replied := s.replied ++ [e] } := by
  cases hstep
  exact ⟨_, _, by assumption, by assumption, rfl⟩

/-- C5: the queue is a pure pass-through for the consumer's reply: a reply
step hands the producer exactly the reply value, nil for nil and the
identical error otherwise, and that value is what Enqueue returns. -/
theorem enqueue_reply_passthrough (s t : QState) (p : Nat) (op : Operation)
    (e : Option GoError) (_hr : Reachable s)
    (hp : s.producers[p]? = some (PStatus.awaitingReply op))
    (hstep : Step s (Label.reply p e) t) :
    t.producers[p]? = some (PStatus.doneReplied op e) ∧
      PStatus.enqueueResult (PStatus.doneReplied op e) = some e := by
  obtain ⟨op0, opB, hq, hc, rfl⟩ := reply_step_inversion hstep
  rw [hp] at hq
  have h1 := Option.some.inj hq
  injection h1 with h2
  subst h2
  refine ⟨?_, rfl⟩
  show (s.producers.set p _)[p]? = _
  exact List.getElem?_set_self (List.getElem?_eq_some.mp hp).1

/-- Concrete operation for the C5 witness run. -/
def c5op : Operation := ⟨[[2]]⟩

/-- Concrete consumer reply for the C5 witness run. -/
def c5boom : Option GoError := some (GoError.errorString "boom")

/-- State of the C5 witness run just after the handoff. -/
def c5pre : QState :=
  { producers := [PStatus.awaitingReply c5op], consumerBusy := some c5op,
    received := [(0, c5op)], replied := [], clock := 0 }

/-- State of the C5 witness run after the consumer replies. -/
def c5post : QState :=
  { producers := [PStatus.doneReplied c5op c5boom], consumerBusy := none,
    received := [(0, c5op)], replied := [c5boom], clock := 0 }

/-- The C5 pre-state is reachable. -/
lemma c5pre_reachable : Reachable c5pre :=
  Reachable.step (Reachable.step Reachable.init
    (Step.spawn initState c5op))
    (Step.handoff _ 0 c5op (initState.clock + EnqueueTimeout) rfl rfl)

/-- The C5 reply step. -/
lemma c5step : Step c5pre (Label.reply 0 c5boom) c5post :=
  Step.reply c5pre 0 c5op c5op c5boom rfl rfl

/-- Witness for C5 on the concrete consumer error. -/
theorem enqueue_reply_passthrough_witness :
    c5post.producers[0]? = some (PStatus.doneReplied c5op c5boom) :=
  (enqueue_reply_passthrough c5pre c5post 0 c5op c5boom c5pre_reachable
    rfl c5step).1

/-- Helper: mapping a list by positional default lookup over its range of
indices is mapping the list itself. -/
lemma range_map_getD (l : List PStatus) :
    (List.range l.length).map (fun q => (l.getD q default).op) =
      l.map PStatus.op := by
  induction l with
  | nil => rfl
  | cons a l ih =>
    rw [List.length_cons, List.range_succ_eq_map]
    simp only [List.map_cons, List.map_map, Function.comp_def,
      List.getD_cons_zero, List.getD_cons_succ]
    rw [ih]

/-- C8: once every producer has finished with a nil reply, the multiset of
operations the consumer received equals the multiset the producers
submitted: each successfully enqueued operation was observed exactly once
and nothing else was observed. -/
theorem successful_enqueues_multiset (s : QState) (hr : Reachable s)
    (hall : s.producers.all PStatus.isDoneNil = true) :
    ((s.received.map Prod.snd : List Operation) : Multiset Operation) =
      ((s.producers.map PStatus.op : List Operation) :
        Multiset Operation) := by
  have inv := reachable_qinv hr
  rw [List.all_eq_true] at hall
  have hdone : ∀ (q : Nat) (st : PStatus), s.producers[q]? = some st →
      st = PStatus.doneReplied st.op none := by
    intro q st hst
    have hm : st ∈ s.producers := List.getElem?_mem hst
    have hnil := hall st hm
    cases st with
    | doneReplied o r =>
      cases r with
      | none => rfl
      | some e => simp [PStatus.isDoneNil] at hnil
    | waiting o d => simp [PStatus.isDoneNil] at hnil
    | awaitingReply o => simp [PStatus.isDoneNil] at hnil
    | doneTimedOut o => simp [PStatus.isDoneNil] at hnil
  have hnd_recv : s.received.Nodup := inv.fstNodup.of_map _
  have hnd_t : ((List.range s.producers.length).map
      (fun q => (q, (s.producers.getD q default).op))).Nodup :=
    (List.nodup_range s.producers.length).map
      (fun a b hab => congrArg Prod.fst hab)
  have hsub1 : s.received ⊆ (List.range s.producers.length).map
      (fun q => (q, (s.producers.getD q default).op)) := by
    rintro ⟨q, o⟩ he
    obtain ⟨st, hst, hd⟩ := inv.recvState (q, o) he
    have hq : q < s.producers.length := (List.getElem?_eq_some.mp hst).1
    have hgd : s.producers.getD q default = st := by
      rw [List.getD_eq_getElem?_getD, hst]
      rfl
    have hstd := hdone q st hst
    have ho : st.op = o := by
      rcases hd with h1 | ⟨r, h1⟩
      · rw [hstd] at h1
        exact PStatus.noConfusion h1
      · rw [h1]
        rfl
    refine List.mem_map.mpr ⟨q, List.mem_range.mpr hq, ?_⟩
    rw [hgd, ho]
  have hsub2 : (List.range s.producers.length).map
      (fun q => (q, (s.producers.getD q default).op)) ⊆ s.received := by
    intro x hx
    obtain ⟨q, hq, rfl⟩ := List.mem_map.mp hx
    have hq' : q < s.producers.length := List.mem_range.mp hq
    obtain ⟨st, hst⟩ : ∃ st, s.producers[q]? = some st :=
      ⟨_, List.getElem?_eq_getElem hq'⟩
    have hgd : s.producers.getD q default = st := by
      rw [List.getD_eq_getElem?_getD, hst]
      rfl
    have hstd := hdone q st hst
    have hst' : s.producers[q]? = some (PStatus.doneReplied st.op none) :=
      hst.trans (congrArg some hstd)
    have hrec := inv.repliedRecv q st.op none hst'
    rw [hgd]
    exact hrec
  have hperm : s.received.Perm ((List.range s.producers.length).map
      (fun q => (q, (s.producers.getD q default).op))) :=
    (List.subperm_of_subset hnd_recv hsub1).antisymm
      (List.subperm_of_subset hnd_t hsub2)
  have hperm2 := hperm.map Prod.snd
  have htm : ((List.range s.producers.length).map
      (fun q => (q, (s.producers.getD q default).op))).map Prod.snd =
      s.producers.map PStatus.op := by
    rw [List.map_map]
    exact range_map_getD s.producers
  rw [htm] at hperm2
  exact Multiset.coe_eq_coe.mpr hperm2

/-- Concrete operation for the C8 witness run. -/
def c8op : Operation := ⟨[[3]]⟩

/-- State of the C8 witness run after one spawn, its handoff and the nil
reply. -/
def c8state : QState :=
  { producers := [PStatus.doneReplied c8op none], consumerBusy := none,
    received := [(0, c8op)], replied := [none], clock := 0 }

/-- The C8 witness state is reachable. -/
lemma c8state_reachable : Reachable c8state :=
  Reachable.step (Reachable.step (Reachable.step Reachable.init
    (Step.spawn initState c8op))
    (Step.handoff _ 0 c8op (initState.clock + EnqueueTimeout) rfl rfl))
    (Step.reply _ 0 c8op c8op none rfl rfl)

/-- Witness for C8 on the concrete run. -/
theorem successful_enqueues_multiset_witness :
    ((c8state.received.map Prod.snd : List Operation) : Multiset Operation) =
      ((c8state.producers.map PStatus.op : List Operation) :
        Multiset Operation) :=
  successful_enqueues_multiset c8state c8state_reachable rfl

end Juju
